import Mathlib

/-!
# Verification of the `der` context-specific field and octet-string modules

A shallow embedding of `src/der/src/asn1/context_specific.rs` and
`src/der/src/asn1/octet_string.rs`. The surrounding framing machinery
(`Tag`, `Length`, `Header`, `Reader`, `AnyRef`, `BytesRef`) is not part of
the excerpted sources, so it is modelled from the specification's wire-format
and cursor descriptions. Byte buffers are `List Nat` (each element a byte
value), readers are modelled by explicit state passing: a decoder takes the
remaining input and returns the decoded value together with the input left
over after it.
-/

namespace Der

/-- Modelled from the spec: the error taxonomy of §7. `unexpectedTag` and
`nonCanonical` carry the offending tag, mirroring `tag.unexpected_error()`
and `tag.non_canonical_error()` in the source. `lengthError` mirrors
`ErrorKind::Length { tag }` used by `OctetStringRef::new`. -/
inductive DerError where
  | unexpectedTag (tag : Nat)
  | nonCanonical (tag : Nat)
  | nonCanonicalLength
  | truncatedInput
  | trailingData
  | lengthOverflow
  | tagNumberInvalid
  | invalidContent
  | lengthError (tag : Nat)
deriving DecidableEq

instance {ε α : Type} [DecidableEq ε] [DecidableEq α] : DecidableEq (Except ε α) := fun a b =>
  match a, b with
  | .error x, .error y =>
    if h : x = y then .isTrue (by rw [h]) else .isFalse (fun he => by cases he; exact h rfl)
  | .ok x, .ok y =>
    if h : x = y then .isTrue (by rw [h]) else .isFalse (fun he => by cases he; exact h rfl)
  | .error _, .ok _ => .isFalse (fun he => by cases he)
  | .ok _, .error _ => .isFalse (fun he => by cases he)

/-- Modelled from the spec: tag classes, §6 (bits 7–6 of the tag octet). -/
inductive TagClass where
  | universal
  | application
  | contextSpecific
  | priv
deriving DecidableEq

/-- Class bits as they appear in the high two bits of the tag octet (§6). -/
def TagClass.bits : TagClass → Nat
  | .universal => 0
  | .application => 1
  | .contextSpecific => 2
  | .priv => 3

/-- Modelled from the spec: a `Tag` is a class, a constructed/primitive flag
and a tag number (§3); numbers 0–30 are encodable inline (§6). -/
structure Tag where
  cls : TagClass
  constructed : Bool
  number : Nat
deriving DecidableEq

/-- `Tag::is_context_specific`. -/
def Tag.is_context_specific (t : Tag) : Bool :=
  t.cls = TagClass.contextSpecific

/-- `Tag::is_constructed`. -/
def Tag.is_constructed (t : Tag) : Bool :=
  t.constructed

/-- Modelled from the spec: the single tag octet of §6 — class in bits 7–6,
constructed flag in bit 5, number in bits 4–0. -/
def Tag.encodeByte (t : Tag) : Nat :=
  t.cls.bits * 64 + (if t.constructed then 32 else 0) + t.number

/-- Class decoded from the high two bits. -/
def TagClass.ofBits (b : Nat) : TagClass :=
  match b with
  | 0 => .universal
  | 1 => .application
  | 2 => .contextSpecific
  | _ => .priv

/-- Modelled from the spec: decoding one tag octet (§6); number 31 signals the
multi-byte high-tag-number form, which this core does not cover, so it is
rejected. -/
def Tag.decodeByte (b : Nat) : Except DerError Tag :=
  let number := b % 32
  if number = 31 then .error .tagNumberInvalid
  else .ok ⟨TagClass.ofBits (b / 64 % 4), decide ((b / 32) % 2 = 1), number⟩

/-- Modelled from the spec: `Length` is upper-bounded (§3); long-form length
encodings use at most four magnitude bytes. -/
def maxLength : Nat := 2 ^ 32 - 1

/-- Minimal big-endian magnitude bytes of a natural number (empty for 0). -/
def natToBEBytes (n : Nat) : List Nat :=
  if n = 0 then []
  else natToBEBytes (n / 256) ++ [n % 256]
decreasing_by exact Nat.div_lt_self (Nat.pos_of_ne_zero (by assumption)) (by omega)

/-- Big-endian byte list read back as a natural number. -/
def beBytesToNat (bs : List Nat) : Nat :=
  bs.foldl (fun acc b => acc * 256 + b) 0

/-- Modelled from the spec: canonical length encoding (§4.1, §6) — one octet
for values ≤ 0x7F, otherwise `0x80 | count` followed by the minimal
big-endian magnitude bytes. -/
def lengthEncode (n : Nat) : List Nat :=
  if n ≤ 0x7F then [n]
  else (0x80 + (natToBEBytes n).length) :: natToBEBytes n

/-- Modelled from the spec: canonical length decoding (§4.1, §6). Rejects the
indefinite form, oversize counts, leading-zero padding, and long form where
short form suffices. Returns the length and the remaining input. -/
def lengthDecode (input : List Nat) : Except DerError (Nat × List Nat) :=
  match input with
  | [] => .error .truncatedInput
  | b :: rest =>
    if b ≤ 0x7F then .ok (b, rest)
    else
      let count := b - 0x80
      if count = 0 ∨ 4 < count then .error .lengthOverflow
      else if rest.length < count then .error .truncatedInput
      else
        let bs := rest.take count
        let n := beBytesToNat bs
        if bs.head? = some 0 ∨ n ≤ 0x7F then .error .nonCanonicalLength
        else .ok (n, rest.drop count)

/-- Modelled from the spec: a `Header` is the `(Tag, Length)` pair prefixing
every TLV unit (§3). -/
structure Header where
  tag : Tag
  length : Nat
deriving DecidableEq

/-- Modelled from the spec: `Header::decode` — tag octet first, then the
length octets (§4.1). Returns the header and the remaining input. -/
def Header.decode (input : List Nat) : Except DerError (Header × List Nat) :=
  match input with
  | [] => .error .truncatedInput
  | b :: rest =>
    match Tag.decodeByte b with
    | .error e => .error e
    | .ok tag =>
      match lengthDecode rest with
      | .error e => .error e
      | .ok (len, rest2) => .ok (⟨tag, len⟩, rest2)

/-- Modelled from the spec: the header's own encoded bytes — the tag octet
followed by the length octets. -/
def Header.encode (h : Header) : List Nat :=
  Tag.encodeByte h.tag :: lengthEncode h.length

/-- Modelled from the spec: `Reader::read_nested` (§4.2) — restrict the
reader to exactly `len` bytes, run `f` on that sub-view, and require the
sub-view fully consumed; leftover bytes are a trailing-data error, a short
buffer a truncation error. -/
def readNested {α : Type} (len : Nat) (f : List Nat → Except DerError (α × List Nat))
    (input : List Nat) : Except DerError (α × List Nat) :=
  if len ≤ input.length then
    match f (input.take len) with
    | .error e => .error e
    | .ok (a, leftover) =>
      if leftover = [] then .ok (a, input.drop len) else .error .trailingData
  else .error .truncatedInput

/-- Modelled from the spec: `Reader::read_vec` — read exactly `len` bytes
verbatim. -/
def readVec (len : Nat) (input : List Nat) : Except DerError (List Nat × List Nat) :=
  if len ≤ input.length then .ok (input.take len, input.drop len)
  else .error .truncatedInput

/-- Modelled from the spec: `Tag::peek_optional` — non-consuming lookahead;
`none` at end of input, otherwise the tag decoded from the next octet. -/
def Tag.peek_optional (input : List Nat) : Except DerError (Option Tag) :=
  match input with
  | [] => .ok none
  | b :: _ =>
    match Tag.decodeByte b with
    | .error e => .error e
    | .ok t => .ok (some t)

/-- Modelled from the spec: `AnyRef::decode` — an untyped TLV unit: a header
followed by exactly `length` raw content bytes. Returns the content bytes
and the remaining input. -/
def anyDecode (input : List Nat) : Except DerError (List Nat × List Nat) :=
  match Header.decode input with
  | .error e => .error e
  | .ok (header, rest) => readVec header.length rest

set_option maxRecDepth 4000

/-- A successful length decode consumes at least one byte. -/
theorem lengthDecode_length_lt {l l' : List Nat} {n : Nat}
    (h : lengthDecode l = .ok (n, l')) : l'.length < l.length := by
  match l with
  | [] => simp [lengthDecode] at h
  | b :: rest =>
    simp only [lengthDecode] at h
    split at h
    · cases h
      simp
    · split at h
      · cases h
      · split at h
        · cases h
        · split at h
          · cases h
          · cases h
            simp only [List.length_cons, List.length_drop]
            omega

/-- A successful header decode consumes at least one byte. -/
theorem Header.decode_length_lt {l l' : List Nat} {h : Header}
    (hd : Header.decode l = .ok (h, l')) : l'.length < l.length := by
  match l with
  | [] => simp [Header.decode] at hd
  | b :: rest =>
    simp only [Header.decode] at hd
    split at hd
    · cases hd
    · split at hd
      · cases hd
      · rename_i len rest2 heq
        cases hd
        have := lengthDecode_length_lt heq
        simp only [List.length_cons]
        omega

/-- A successful untyped TLV decode consumes at least one byte. -/
theorem anyDecode_length_lt {l l' cont : List Nat}
    (hd : anyDecode l = .ok (cont, l')) : l'.length < l.length := by
  simp only [anyDecode] at hd
  split at hd
  · cases hd
  · rename_i header rest heq
    have h1 := Header.decode_length_lt heq
    simp only [readVec] at hd
    split at hd
    · cases hd
      simp only [List.length_drop]
      omega
    · cases hd

/-- `TagMode`: `EXPLICIT` vs `IMPLICIT`; the crate's default is `EXPLICIT`. -/
inductive TagMode where
  | Explicit
  | Implicit
deriving DecidableEq

/-- The capability contract a concrete inner value type `α` implements
(§4.3): its natural tag (`Tagged::tag`), its value-level decode
(`DecodeValue::decode_value`, given the already-consumed header), its
unit-level decode (`Decode::decode`), its content length
(`EncodeValue::value_len`) and its content bytes
(`EncodeValue::encode_value`). Decoders return the value together with the
input left unconsumed. -/
structure Codec (α : Type) where
  tag : α → Tag
  decodeValue : Header → List Nat → Except DerError (α × List Nat)
  decode : List Nat → Except DerError (α × List Nat)
  valueLen : α → Nat
  encodeValue : α → List Nat

/-- `ContextSpecific<T>`: tag number, tag mode and inner value
(`context_specific.rs` lines 14–24). -/
structure ContextSpecific (α : Type) where
  tag_number : Nat
  tag_mode : TagMode
  value : α
deriving DecidableEq

/-- `Decode for ContextSpecific<T>::decode` (`context_specific.rs` lines
127–145): consume the outer header; if its tag is context-specific with the
constructed flag set, decode the inner value's own TLV unit inside a nested
cursor bounded by the outer length (tag mode defaults to `EXPLICIT`);
any other tag is an unexpected-tag error. -/
def ContextSpecific.decode {α : Type} (cod : Codec α) (input : List Nat) :
    Except DerError (ContextSpecific α × List Nat) :=
  match Header.decode input with
  | .error e => .error e
  | .ok (header, rest) =>
    if header.tag.cls = TagClass.contextSpecific ∧ header.tag.constructed = true then
      match readNested header.length cod.decode rest with
      | .error e => .error e
      | .ok (v, rest2) =>
        .ok (⟨header.tag.number, TagMode.Explicit, v⟩, rest2)
    else .error (.unexpectedTag (Tag.encodeByte header.tag))

/-- The closure body of `ContextSpecific::decode_implicit`
(`context_specific.rs` lines 65–84): consume the outer header, decode the
inner value at value level inside a nested cursor bounded by the outer
length, then require the outer constructed flag to equal the inner value's
natural constructed flag — a mismatch is a non-canonical error. -/
def ContextSpecific.decodeImplicitField {α : Type} (cod : Codec α) (tag_number : Nat)
    (input : List Nat) : Except DerError (ContextSpecific α × List Nat) :=
  match Header.decode input with
  | .error e => .error e
  | .ok (header, rest) =>
    match readNested header.length (cod.decodeValue header) rest with
    | .error e => .error e
    | .ok (value, rest2) =>
      if header.tag.is_constructed ≠ (cod.tag value).is_constructed then
        .error (.nonCanonical (Tag.encodeByte header.tag))
      else
        .ok (⟨tag_number, TagMode.Implicit, value⟩, rest2)

/-- `ContextSpecific::decode_with` (`context_specific.rs` lines 89–109): the
extension-skip loop. Peek the next tag; stop with `none` (input unchanged)
at end of input, at a non-context-specific tag, or at a higher tag number;
at the target number run the mode-specific field decoder `f`; at a lower
number consume the field as an untyped TLV unit and repeat. -/
def ContextSpecific.decode_with {α : Type}
    (f : List Nat → Except DerError (ContextSpecific α × List Nat))
    (tag_number : Nat) (input : List Nat) :
    Except DerError (Option (ContextSpecific α) × List Nat) :=
  match Tag.peek_optional input with
  | .error e => .error e
  | .ok none => .ok (none, input)
  | .ok (some tag) =>
    if ¬ tag.is_context_specific = true ∨ tag.number > tag_number then
      .ok (none, input)
    else if tag.number = tag_number then
      match f input with
      | .error e => .error e
      | .ok (v, rest) => .ok (some v, rest)
    else
      match hskip : anyDecode input with
      | .error e => .error e
      | .ok (_, rest) => ContextSpecific.decode_with f tag_number rest
termination_by input.length
decreasing_by exact anyDecode_length_lt hskip

/-- `ContextSpecific::decode_explicit` (`context_specific.rs` lines 42–50):
the extension-skip loop with the `EXPLICIT` unit-level field decoder. -/
def ContextSpecific.decode_explicit {α : Type} (cod : Codec α) (tag_number : Nat)
    (input : List Nat) : Except DerError (Option (ContextSpecific α) × List Nat) :=
  ContextSpecific.decode_with (ContextSpecific.decode cod) tag_number input

/-- `ContextSpecific::decode_implicit` (`context_specific.rs` lines 58–85):
the extension-skip loop with the `IMPLICIT` field decoder. -/
def ContextSpecific.decode_implicit {α : Type} (cod : Codec α) (tag_number : Nat)
    (input : List Nat) : Except DerError (Option (ContextSpecific α) × List Nat) :=
  ContextSpecific.decode_with (ContextSpecific.decodeImplicitField cod tag_number)
    tag_number input

/-- `Choice for ContextSpecific<T>::can_decode` (`context_specific.rs` lines
116–118): accept exactly the context-specific tags. -/
def ContextSpecific.can_decode (tag : Tag) : Bool :=
  tag.is_context_specific

/-- `Tagged for ContextSpecific<T>::tag` (`context_specific.rs` lines
171–181): a context-specific tag with this field's number; constructed is
always set in `EXPLICIT` mode and borrowed from the inner value in
`IMPLICIT` mode. -/
def ContextSpecific.tag {α : Type} (cod : Codec α) (c : ContextSpecific α) : Tag :=
  let constructed :=
    match c.tag_mode with
    | TagMode.Explicit => true
    | TagMode.Implicit => (cod.tag c.value).is_constructed
  ⟨TagClass.contextSpecific, constructed, c.tag_number⟩

/-- `EncodeValue for ContextSpecific<T>::value_len` (`context_specific.rs`
lines 152–157): in `EXPLICIT` mode the inner value's full encoded length
(its header plus its content), in `IMPLICIT` mode its content length only. -/
def ContextSpecific.value_len {α : Type} (cod : Codec α) (c : ContextSpecific α) : Nat :=
  match c.tag_mode with
  | TagMode.Explicit =>
      (Header.encode ⟨cod.tag c.value, cod.valueLen c.value⟩).length + cod.valueLen c.value
  | TagMode.Implicit => cod.valueLen c.value

/-- `EncodeValue for ContextSpecific<T>::encode_value` (`context_specific.rs`
lines 159–164): `EXPLICIT` writes the inner value as a complete nested TLV
unit, `IMPLICIT` writes only the inner value's content bytes. -/
def ContextSpecific.encode_value {α : Type} (cod : Codec α) (c : ContextSpecific α) :
    List Nat :=
  match c.tag_mode with
  | TagMode.Explicit =>
      Header.encode ⟨cod.tag c.value, cod.valueLen c.value⟩ ++ cod.encodeValue c.value
  | TagMode.Implicit => cod.encodeValue c.value

/-- The full canonical encoding of a `ContextSpecific` field: its own header
followed by its `encode_value` bytes. -/
def ContextSpecific.encodedBytes {α : Type} (cod : Codec α) (c : ContextSpecific α) :
    List Nat :=
  Header.encode ⟨ContextSpecific.tag cod c, ContextSpecific.value_len cod c⟩ ++
    ContextSpecific.encode_value cod c

/-- Byte-sequence lexicographic comparison. -/
def bytesCmp : List Nat → List Nat → Ordering
  | [], [] => .eq
  | [], _ :: _ => .lt
  | _ :: _, [] => .gt
  | a :: as, b :: bs => if a < b then .lt else if b < a then .gt else bytesCmp as bs

/-- Modelled from the spec: `DerOrd::der_cmp` compares two values' full
canonical encoded byte sequences (§4.5). -/
def ContextSpecific.der_cmp {α : Type} (cod : Codec α) (a b : ContextSpecific α) :
    Ordering :=
  bytesCmp (ContextSpecific.encodedBytes cod a) (ContextSpecific.encodedBytes cod b)

/-- `ValueOrd for ContextSpecific<T>::value_cmp` (`context_specific.rs` lines
209–214), with explicit fuel to make the recursion total: the `EXPLICIT` arm
returns `self.der_cmp(other)`; the `IMPLICIT` arm is `self.value_cmp(other)`
— a recursive call to this very method on the same arguments, so each fuel
step reproduces the same call and `none` models non-termination. -/
def ContextSpecific.value_cmp {α : Type} (cod : Codec α) :
    Nat → ContextSpecific α → ContextSpecific α → Option Ordering
  | 0, _, _ => none
  | fuel + 1, a, b =>
    match a.tag_mode with
    | TagMode.Explicit => some (ContextSpecific.der_cmp cod a b)
    | TagMode.Implicit => ContextSpecific.value_cmp cod fuel a b

/-- `Tag::OctetString`: universal class, primitive, number 4. -/
def Tag.octetString : Tag := ⟨TagClass.universal, false, 4⟩

/-- Modelled from the spec: `BytesRef` — a byte slice whose length fits the
bounded `Length` type; the only content constraint of an octet string. -/
structure BytesRef where
  data : List Nat
  len_le : data.length ≤ maxLength

theorem BytesRef.ext_data {a b : BytesRef} (h : a.data = b.data) : a = b := by
  cases a; cases b; cases h; rfl

/-- Modelled from the spec: `BytesRef::new` — fallible construction checking
the length bound. -/
def BytesRef.new (slice : List Nat) : Except DerError BytesRef :=
  if h : slice.length ≤ maxLength then .ok ⟨slice, h⟩ else .error .lengthOverflow

/-- Modelled from the spec: `BytesRef::decode_value` — view exactly the
header-declared number of bytes verbatim. -/
def BytesRef.decode_value (header : Header) (input : List Nat) :
    Except DerError (BytesRef × List Nat) :=
  match readVec header.length input with
  | .error e => .error e
  | .ok (bytes, rest) =>
    match BytesRef.new bytes with
    | .error e => .error e
    | .ok br => .ok (br, rest)

/-- `OctetStringRef` (`octet_string.rs` lines 14–17): borrowed octet string
wrapping a `BytesRef`. -/
structure OctetStringRef where
  inner : BytesRef

theorem OctetStringRef.ext_inner {a b : OctetStringRef} (h : a.inner.data = b.inner.data) :
    a = b := by
  cases a; cases b; cases BytesRef.ext_data h; rfl

/-- `OctetStringRef::new` (`octet_string.rs` lines 21–25): construct via
`BytesRef::new`, mapping its failure to `ErrorKind::Length` with the octet
string tag. -/
def OctetStringRef.new (slice : List Nat) : Except DerError OctetStringRef :=
  match BytesRef.new slice with
  | .ok inner => .ok ⟨inner⟩
  | .error _ => .error (.lengthError (Tag.encodeByte Tag.octetString))

/-- `DecodeValue for OctetStringRef::decode_value` (`octet_string.rs` lines
59–62): decode the content via `BytesRef::decode_value`. -/
def OctetStringRef.decode_value (header : Header) (input : List Nat) :
    Except DerError (OctetStringRef × List Nat) :=
  match BytesRef.decode_value header input with
  | .error e => .error e
  | .ok (inner, rest) => .ok (⟨inner⟩, rest)

/-- `EncodeValue for OctetStringRef::value_len` (`octet_string.rs` lines
66–68): the stored slice's byte count. -/
def OctetStringRef.value_len (s : OctetStringRef) : Nat :=
  s.inner.data.length

/-- `EncodeValue for OctetStringRef::encode_value` (`octet_string.rs` lines
70–72): write the stored bytes verbatim. -/
def OctetStringRef.encode_value (s : OctetStringRef) : List Nat :=
  s.inner.data

/-- `OctetString` (`octet_string.rs` lines 172–175): owned octet string over
an unconstrained byte vector. -/
structure OctetString where
  inner : List Nat
deriving DecidableEq

/-- `OctetString::new` (`octet_string.rs` lines 179–186): validate the bytes
through `OctetStringRef::new`, then store them. -/
def OctetString.new (bytes : List Nat) : Except DerError OctetString :=
  match OctetStringRef.new bytes with
  | .error e => .error e
  | .ok _ => .ok ⟨bytes⟩

/-- `DecodeValue for OctetString::decode_value` (`octet_string.rs` lines
220–222): read the header-declared number of bytes and construct via
`OctetString::new`. -/
def OctetString.decode_value (header : Header) (input : List Nat) :
    Except DerError (OctetString × List Nat) :=
  match readVec header.length input with
  | .error e => .error e
  | .ok (bytes, rest) =>
    match OctetString.new bytes with
    | .error e => .error e
    | .ok os => .ok (os, rest)

/-- `EncodeValue for OctetString::value_len` (`octet_string.rs` lines
226–228): the stored vector's byte count. -/
def OctetString.value_len (s : OctetString) : Nat :=
  s.inner.length

/-- `EncodeValue for OctetString::encode_value` (`octet_string.rs` lines
230–232): write the stored bytes verbatim. -/
def OctetString.encode_value (s : OctetString) : List Nat :=
  s.inner

/-- `From<&OctetString> for OctetStringRef` / `owned_to_ref`
(`octet_string.rs` lines 239–244, 257–262): re-validate the owned bytes via
`OctetStringRef::new`; the source unwraps this result with
`.expect("invalid OCTET STRING")`, so the error branch models the panic. -/
def OctetString.owned_to_ref (s : OctetString) : Except DerError OctetStringRef :=
  OctetStringRef.new s.inner

/-- Modelled from the spec: the derived unit-level decode of a fixed-tag
value type (§4.3) — consume the header, require the expected tag, then run
the value-level decode inside a nested cursor of the declared length. -/
def unitDecode {α : Type} (expected : Tag)
    (dv : Header → List Nat → Except DerError (α × List Nat))
    (input : List Nat) : Except DerError (α × List Nat) :=
  match Header.decode input with
  | .error e => .error e
  | .ok (h, rest) =>
    if h.tag = expected then readNested h.length (dv h) rest
    else .error (.unexpectedTag (Tag.encodeByte h.tag))

/-- Modelled from the spec: the derived unit-level encode (§4.3) — a header
built from the value's tag and content length, followed by its content. -/
def unitEncode {α : Type} (tag : α → Tag) (valueLen : α → Nat)
    (encodeValue : α → List Nat) (v : α) : List Nat :=
  Header.encode ⟨tag v, valueLen v⟩ ++ encodeValue v

/-- The borrowed octet string's capability bundle
(`octet_string.rs` lines 56–79). -/
def octetStringRefCodec : Codec OctetStringRef where
  tag := fun _ => Tag.octetString
  decodeValue := OctetStringRef.decode_value
  decode := unitDecode Tag.octetString OctetStringRef.decode_value
  valueLen := OctetStringRef.value_len
  encodeValue := OctetStringRef.encode_value

/-- The owned octet string's capability bundle
(`octet_string.rs` lines 217–237). -/
def octetStringCodec : Codec OctetString where
  tag := fun _ => Tag.octetString
  decodeValue := OctetString.decode_value
  decode := unitDecode Tag.octetString OctetString.decode_value
  valueLen := OctetString.value_len
  encodeValue := OctetString.encode_value

/-- `Tag::Integer`: universal class, primitive, number 2. -/
def Tag.integer : Tag := ⟨TagClass.universal, false, 2⟩

/-- Modelled from the spec: the 8-bit integer leaf type used by the concrete
scenarios — canonical minimal-length unsigned content: one byte for values
up to 0x7F, a zero-prefixed two-byte form for 0x80–0xFF. -/
def u8DecodeValue (header : Header) (input : List Nat) :
    Except DerError (Nat × List Nat) :=
  match header.length, input with
  | 1, b :: rest => if b ≤ 0x7F then .ok (b, rest) else .error .invalidContent
  | 2, 0 :: b :: rest =>
      if 0x80 ≤ b ∧ b ≤ 0xFF then .ok (b, rest) else .error .invalidContent
  | _, _ => .error .invalidContent

/-- Modelled from the spec: the 8-bit integer's content length. -/
def u8ValueLen (n : Nat) : Nat := if n ≤ 0x7F then 1 else 2

/-- Modelled from the spec: the 8-bit integer's content bytes. -/
def u8EncodeValue (n : Nat) : List Nat := if n ≤ 0x7F then [n] else [0, n]

/-- Modelled from the spec: the 8-bit integer's capability bundle. -/
def u8Codec : Codec Nat where
  tag := fun _ => Tag.integer
  decodeValue := u8DecodeValue
  decode := unitDecode Tag.integer u8DecodeValue
  valueLen := u8ValueLen
  encodeValue := u8EncodeValue

/-! ## Roundtrip lemmas for the modelled framing -/

theorem beBytesToNat_concat (xs : List Nat) (b : Nat) :
    beBytesToNat (xs ++ [b]) = beBytesToNat xs * 256 + b := by
  simp [beBytesToNat]

theorem beBytesToNat_natToBEBytes (n : Nat) :
    beBytesToNat (natToBEBytes n) = n := by
  induction n using Nat.strong_induction_on with
  | _ n ih =>
    rw [natToBEBytes]
    split
    · rename_i h
      simp [beBytesToNat, h]
    · rename_i h
      rw [beBytesToNat_concat,
        ih (n / 256) (Nat.div_lt_self (Nat.pos_of_ne_zero h) (by omega))]
      omega

theorem natToBEBytes_ne_nil {n : Nat} (h : n ≠ 0) : natToBEBytes n ≠ [] := by
  rw [natToBEBytes, if_neg h]
  simp

theorem natToBEBytes_head_ne_zero :
    ∀ n : Nat, n ≠ 0 → (natToBEBytes n).head? ≠ some 0 := by
  intro n
  induction n using Nat.strong_induction_on with
  | _ n ih =>
    intro hn
    rw [natToBEBytes, if_neg hn]
    by_cases hq : n / 256 = 0
    · rw [natToBEBytes, if_pos hq]
      simp only [List.nil_append, List.head?_cons, ne_eq, Option.some.injEq]
      omega
    · rw [List.head?_append_of_ne_nil _ (natToBEBytes_ne_nil hq)]
      exact ih (n / 256) (Nat.div_lt_self (Nat.pos_of_ne_zero hn) (by omega)) hq

theorem natToBEBytes_length_le :
    ∀ (k n : Nat), n < 256 ^ k → (natToBEBytes n).length ≤ k := by
  intro k
  induction k with
  | zero =>
    intro n h
    have : n = 0 := by simpa using h
    subst this
    rw [natToBEBytes]
    simp
  | succ k ih =>
    intro n h
    rw [natToBEBytes]
    split
    · simp
    · rename_i hn
      have hdiv : n / 256 < 256 ^ k := by
      -- n < 256 ^ (k + 1) = 256 * 256 ^ k
        rw [pow_succ] at h
        omega
      have := ih (n / 256) hdiv
      simp only [List.length_append, List.length_cons, List.length_nil]
      omega

theorem lengthDecode_lengthEncode {n : Nat} (hn : n ≤ maxLength) (rest : List Nat) :
    lengthDecode (lengthEncode n ++ rest) = .ok (n, rest) := by
  by_cases h : n ≤ 0x7F
  · simp [lengthEncode, lengthDecode, h]
  · have hne : n ≠ 0 := by omega
    have hnn : natToBEBytes n ≠ [] := natToBEBytes_ne_nil hne
    have hlen1 : 1 ≤ (natToBEBytes n).length := by
      cases hx : natToBEBytes n with
      | nil => exact absurd hx hnn
      | cons a l => simp
    have hlen4 : (natToBEBytes n).length ≤ 4 := by
      apply natToBEBytes_length_le
      have : (256 : Nat) ^ 4 = 2 ^ 32 := by norm_num
      rw [this]
      have : maxLength < 2 ^ 32 := by norm_num [maxLength]
      omega
    have e1 : lengthEncode n ++ rest
        = (0x80 + (natToBEBytes n).length) :: (natToBEBytes n ++ rest) := by
      simp [lengthEncode, h]
    rw [e1]
    simp only [lengthDecode]
    rw [if_neg (by omega)]
    simp only [Nat.add_sub_cancel_left]
    rw [if_neg (by omega)]
    rw [if_neg (by simp only [List.length_append]; omega)]
    rw [List.take_left, List.drop_left]
    rw [if_neg (by
      simp only [beBytesToNat_natToBEBytes]
      push_neg
      exact ⟨natToBEBytes_head_ne_zero n hne, by omega⟩)]
    rw [beBytesToNat_natToBEBytes]

theorem TagClass.ofBits_bits (c : TagClass) : TagClass.ofBits c.bits = c := by
  cases c <;> rfl

theorem Tag.decodeByte_encodeByte {t : Tag} (h : t.number ≤ 30) :
    Tag.decodeByte (Tag.encodeByte t) = .ok t := by
  obtain ⟨cls, con, num⟩ := t
  have hnum : num ≤ 30 := h
  have hb : cls.bits ≤ 3 := by cases cls <;> simp [TagClass.bits]
  cases con
  · have e1 : (cls.bits * 64 + 0 + num) % 32 = num := by omega
    have e2 : (cls.bits * 64 + 0 + num) / 64 % 4 = cls.bits := by omega
    have e3 : (cls.bits * 64 + 0 + num) / 32 % 2 = 0 := by omega
    simp only [Tag.encodeByte, Bool.false_eq_true, if_false]
    simp only [Tag.decodeByte, e1, e2, e3]
    rw [if_neg (by omega)]
    simp [TagClass.ofBits_bits]
  · have e1 : (cls.bits * 64 + 32 + num) % 32 = num := by omega
    have e2 : (cls.bits * 64 + 32 + num) / 64 % 4 = cls.bits := by omega
    have e3 : (cls.bits * 64 + 32 + num) / 32 % 2 = 1 := by omega
    simp only [Tag.encodeByte, if_true]
    simp only [Tag.decodeByte, e1, e2, e3]
    rw [if_neg (by omega)]
    simp [TagClass.ofBits_bits]

theorem Header.decode_encode {h : Header} (ht : h.tag.number ≤ 30)
    (hl : h.length ≤ maxLength) (rest : List Nat) :
    Header.decode (Header.encode h ++ rest) = .ok (h, rest) := by
  obtain ⟨tag, len⟩ := h
  simp only [Header.encode, List.cons_append, Header.decode]
  rw [Tag.decodeByte_encodeByte ht]
  rw [lengthDecode_lengthEncode hl rest]

theorem readNested_exact {α : Type} (f : List Nat → Except DerError (α × List Nat))
    (content rest : List Nat) (a : α) (hf : f content = .ok (a, [])) :
    readNested content.length f (content ++ rest) = .ok (a, rest) := by
  rw [readNested, if_pos (by simp)]
  rw [List.take_left, hf]
  simp [List.drop_left]

theorem readVec_exact (content rest : List Nat) :
    readVec content.length (content ++ rest) = .ok (content, rest) := by
  rw [readVec, if_pos (by simp)]
  rw [List.take_left, List.drop_left]

/-- Lift a field-decoder result into the optional-field result shape, as the
`Some(f(reader)).transpose()` of `decode_with` does. -/
def liftCS {α : Type} (r : Except DerError (ContextSpecific α × List Nat)) :
    Except DerError (Option (ContextSpecific α) × List Nat) :=
  match r with
  | .error e => .error e
  | .ok (v, rest) => .ok (some v, rest)

/-! ## One-step behavior of the extension-skip loop -/

theorem decode_with_none {α : Type}
    (f : List Nat → Except DerError (ContextSpecific α × List Nat))
    (n : Nat) (input : List Nat) (h : Tag.peek_optional input = .ok none) :
    ContextSpecific.decode_with f n input = .ok (none, input) := by
  rw [ContextSpecific.decode_with, h]

theorem decode_with_stop {α : Type}
    (f : List Nat → Except DerError (ContextSpecific α × List Nat))
    (n : Nat) (input : List Nat) (t : Tag)
    (hp : Tag.peek_optional input = .ok (some t))
    (hs : t.is_context_specific = false ∨ n < t.number) :
    ContextSpecific.decode_with f n input = .ok (none, input) := by
  rw [ContextSpecific.decode_with, hp]
  dsimp only
  rw [if_pos (by
    rcases hs with hs | hs
    · exact Or.inl (by simp [hs])
    · exact Or.inr hs)]

theorem decode_with_hit {α : Type}
    (f : List Nat → Except DerError (ContextSpecific α × List Nat))
    (n : Nat) (input : List Nat) (t : Tag)
    (hp : Tag.peek_optional input = .ok (some t))
    (hcs : t.is_context_specific = true) (heq : t.number = n) :
    ContextSpecific.decode_with f n input = liftCS (f input) := by
  rw [ContextSpecific.decode_with, hp]
  dsimp only
  rw [if_neg (by simp [hcs]; omega)]
  rw [if_pos heq]
  cases hf : f input with
  | error e => simp [liftCS, hf]
  | ok p => cases p; simp [liftCS, hf]

theorem decode_with_skip {α : Type}
    (f : List Nat → Except DerError (ContextSpecific α × List Nat))
    (n : Nat) (input : List Nat) (t : Tag) (content rest : List Nat)
    (hp : Tag.peek_optional input = .ok (some t))
    (hcs : t.is_context_specific = true) (hlt : t.number < n)
    (ha : anyDecode input = .ok (content, rest)) :
    ContextSpecific.decode_with f n input = ContextSpecific.decode_with f n rest := by
  rw [ContextSpecific.decode_with, hp]
  dsimp only
  rw [if_neg (by simp [hcs]; omega)]
  rw [if_neg (by omega)]
  split
  · rename_i e heq
    rw [ha] at heq
    cases heq
  · rename_i p rest' heq
    rw [ha] at heq
    cases heq
    rfl

instance : DecidableEq BytesRef := fun a b =>
  decidable_of_iff (a.data = b.data) ⟨BytesRef.ext_data, by rintro rfl; rfl⟩

instance : DecidableEq OctetStringRef := fun a b =>
  decidable_of_iff (a.inner = b.inner)
    ⟨by intro h; cases a; cases b; cases h; rfl, by rintro rfl; rfl⟩

/-! ## Octet-string decode/encode lemmas -/

theorem BytesRef.new_ok_of_le {bytes : List Nat} (h : bytes.length ≤ maxLength) :
    BytesRef.new bytes = .ok ⟨bytes, h⟩ := by
  rw [BytesRef.new, dif_pos h]

theorem octetString_number_le : Tag.octetString.number ≤ 30 := by decide

theorem OctetStringRef.decode_value_exact_ref (h : Header) (s : OctetStringRef)
    (rest : List Nat) (hl : h.length = s.inner.data.length) :
    OctetStringRef.decode_value h (s.inner.data ++ rest) = .ok (s, rest) := by
  obtain ⟨⟨data, hle⟩⟩ := s
  simp only [OctetStringRef.decode_value, BytesRef.decode_value, hl]
  rw [readVec_exact]
  dsimp only
  rw [BytesRef.new_ok_of_le hle]

theorem octetRef_unit_roundtrip (s : OctetStringRef) (rest : List Nat) :
    unitDecode Tag.octetString OctetStringRef.decode_value
      (unitEncode (fun _ => Tag.octetString) OctetStringRef.value_len
        OctetStringRef.encode_value s ++ rest) = .ok (s, rest) := by
  have hh : Header.decode
      (Header.encode ⟨Tag.octetString, OctetStringRef.value_len s⟩ ++
        (OctetStringRef.encode_value s ++ rest))
      = .ok (⟨Tag.octetString, OctetStringRef.value_len s⟩,
          OctetStringRef.encode_value s ++ rest) :=
    @Header.decode_encode ⟨Tag.octetString, OctetStringRef.value_len s⟩
      octetString_number_le s.inner.len_le (OctetStringRef.encode_value s ++ rest)
  rw [unitEncode, List.append_assoc]
  rw [unitDecode, hh]
  dsimp only
  rw [if_pos rfl]
  have hf : OctetStringRef.decode_value ⟨Tag.octetString, OctetStringRef.value_len s⟩
      (OctetStringRef.encode_value s) = .ok (s, []) := by
    have := OctetStringRef.decode_value_exact_ref
      ⟨Tag.octetString, OctetStringRef.value_len s⟩ s [] rfl
    rwa [List.append_nil] at this
  exact readNested_exact _ s.inner.data rest s hf

theorem OctetString.new_ok_owned {bytes : List Nat} (h : bytes.length ≤ maxLength) :
    OctetString.new bytes = .ok ⟨bytes⟩ := by
  rw [OctetString.new, OctetStringRef.new, BytesRef.new_ok_of_le h]

theorem OctetString.decode_value_exact_owned (h : Header) (bytes rest : List Nat)
    (hle : bytes.length ≤ maxLength) (hl : h.length = bytes.length) :
    OctetString.decode_value h (bytes ++ rest) = .ok (⟨bytes⟩, rest) := by
  simp only [OctetString.decode_value, hl]
  rw [readVec_exact]
  dsimp only
  rw [OctetString.new_ok_owned hle]

theorem octetOwned_unit_roundtrip (s : OctetString) (rest : List Nat)
    (hle : s.inner.length ≤ maxLength) :
    unitDecode Tag.octetString OctetString.decode_value
      (unitEncode (fun _ => Tag.octetString) OctetString.value_len
        OctetString.encode_value s ++ rest) = .ok (s, rest) := by
  have hh : Header.decode
      (Header.encode ⟨Tag.octetString, OctetString.value_len s⟩ ++
        (OctetString.encode_value s ++ rest))
      = .ok (⟨Tag.octetString, OctetString.value_len s⟩,
          OctetString.encode_value s ++ rest) :=
    @Header.decode_encode ⟨Tag.octetString, OctetString.value_len s⟩
      octetString_number_le hle (OctetString.encode_value s ++ rest)
  rw [unitEncode, List.append_assoc]
  rw [unitDecode, hh]
  dsimp only
  rw [if_pos rfl]
  have hf : OctetString.decode_value ⟨Tag.octetString, OctetString.value_len s⟩
      (OctetString.encode_value s) = .ok (s, []) := by
    have := OctetString.decode_value_exact_owned
      ⟨Tag.octetString, OctetString.value_len s⟩ s.inner [] hle rfl
    rw [List.append_nil] at this
    exact this
  exact readNested_exact _ s.inner rest s hf

/-! ## The claims -/

/-- C1: the spec says `value_cmp` on a wrapper in `IMPLICIT` mode terminates
with the inner values' own value-level comparison, and in `EXPLICIT` mode
with `der_cmp` of the full canonical encodings. The `EXPLICIT` arm does
return `der_cmp`, but the `IMPLICIT` arm of the source
(`context_specific.rs` line 212) calls `self.value_cmp(other)` — this very
method on the same arguments — so it never returns: for every fuel bound the
fuelled evaluation is still `none`. The spec's design notes flag exactly
this self-recursion as a defect, so the code, not the claim, is wrong. -/
theorem C1_value_cmp_implicit_diverges {α : Type} (cod : Codec α)
    (a b : ContextSpecific α) :
    (a.tag_mode = TagMode.Implicit →
      ∀ fuel, ContextSpecific.value_cmp cod fuel a b = none) ∧
    (a.tag_mode = TagMode.Explicit →
      ∀ fuel, ContextSpecific.value_cmp cod (fuel + 1) a b =
        some (ContextSpecific.der_cmp cod a b)) := by
  constructor
  · intro hmode fuel
    induction fuel with
    | zero => rfl
    | succ k ih =>
      rw [ContextSpecific.value_cmp, hmode]
      exact ih
  · intro hmode fuel
    rw [ContextSpecific.value_cmp, hmode]

/-- Witness for C1: on a concrete `IMPLICIT` pair the comparison has not
returned after 1000 steps; on the matching `EXPLICIT` pair it returns
`der_cmp` immediately. -/
theorem C1_witness :
    ContextSpecific.value_cmp u8Codec 1000
      ⟨0, TagMode.Implicit, 1⟩ ⟨0, TagMode.Implicit, 2⟩ = none ∧
    ContextSpecific.value_cmp u8Codec 1
      ⟨0, TagMode.Explicit, 1⟩ ⟨0, TagMode.Explicit, 2⟩ =
      some (ContextSpecific.der_cmp u8Codec
        ⟨0, TagMode.Explicit, 1⟩ ⟨0, TagMode.Explicit, 2⟩) :=
  ⟨(C1_value_cmp_implicit_diverges u8Codec _ _).1 rfl 1000,
   (C1_value_cmp_implicit_diverges u8Codec _ _).2 rfl 0⟩

/-- C4: in the `IMPLICIT` field decode, once the outer header is consumed and
the inner value decoded inside the nested bound of the outer length, the
decode fails with a non-canonical error exactly when the outer header's
constructed flag differs from the inner value's natural constructed flag;
when they agree the implicit-mode wrapper is returned. -/
theorem C4_implicit_constructed_flag_check {α : Type} (cod : Codec α) (n : Nat)
    (input : List Nat) (header : Header) (rest : List Nat) (value : α)
    (rest2 : List Nat)
    (hh : Header.decode input = .ok (header, rest))
    (hv : readNested header.length (cod.decodeValue header) rest = .ok (value, rest2)) :
    (header.tag.is_constructed ≠ (cod.tag value).is_constructed →
      ContextSpecific.decodeImplicitField cod n input =
        .error (.nonCanonical (Tag.encodeByte header.tag))) ∧
    (header.tag.is_constructed = (cod.tag value).is_constructed →
      ContextSpecific.decodeImplicitField cod n input =
        .ok (⟨n, TagMode.Implicit, value⟩, rest2)) := by
  constructor
  · intro hflag
    rw [ContextSpecific.decodeImplicitField, hh]
    dsimp only
    rw [hv]
    dsimp only
    rw [if_pos hflag]
  · intro hflag
    rw [ContextSpecific.decodeImplicitField, hh]
    dsimp only
    rw [hv]
    dsimp only
    rw [if_neg (by simp [hflag])]

/-- Witness for C4: byte sequence `80 01 AA` implicitly retags a primitive
octet string with a primitive outer tag, so the flags agree and the value is
returned; `A0 01 AA` retags it constructed, so the decode fails with the
non-canonical error carrying the outer tag byte `0xA0`. -/
theorem C4_witness :
    ContextSpecific.decodeImplicitField octetStringRefCodec 0 [0x80, 1, 0xAA] =
      .ok (⟨0, TagMode.Implicit, ⟨⟨[0xAA], by decide⟩⟩⟩, []) ∧
    ContextSpecific.decodeImplicitField octetStringRefCodec 0 [0xA0, 1, 0xAA] =
      .error (.nonCanonical 0xA0) :=
  ⟨(C4_implicit_constructed_flag_check octetStringRefCodec 0 [0x80, 1, 0xAA]
      ⟨⟨TagClass.contextSpecific, false, 0⟩, 1⟩ [0xAA] ⟨⟨[0xAA], by decide⟩⟩ []
      (by decide) (by decide)).2 (by decide),
   (C4_implicit_constructed_flag_check octetStringRefCodec 0 [0xA0, 1, 0xAA]
      ⟨⟨TagClass.contextSpecific, true, 0⟩, 1⟩ [0xAA] ⟨⟨[0xAA], by decide⟩⟩ []
      (by decide) (by decide)).1 (by decide)⟩

/-- C6: the reported `Tag` of a `ContextSpecific` value is context-specific
with number equal to `tag_number`; its constructed flag is always `true` in
`EXPLICIT` mode and equals the inner value's own natural constructed flag in
`IMPLICIT` mode. -/
theorem C6_reported_tag {α : Type} (cod : Codec α) (c : ContextSpecific α) :
    (ContextSpecific.tag cod c).cls = TagClass.contextSpecific ∧
    (ContextSpecific.tag cod c).number = c.tag_number ∧
    (c.tag_mode = TagMode.Explicit →
      (ContextSpecific.tag cod c).is_constructed = true) ∧
    (c.tag_mode = TagMode.Implicit →
      (ContextSpecific.tag cod c).is_constructed = (cod.tag c.value).is_constructed) := by
  refine ⟨rfl, rfl, ?_, ?_⟩ <;> intro h <;>
    simp [ContextSpecific.tag, h, Tag.is_constructed]

/-- Witness for C6: an `EXPLICIT` wrapper over a primitive octet string
reports a constructed tag, an `IMPLICIT` one borrows the inner primitive
flag. -/
theorem C6_witness :
    (ContextSpecific.tag octetStringRefCodec
      ⟨2, TagMode.Explicit, ⟨⟨[7], by decide⟩⟩⟩).is_constructed = true ∧
    (ContextSpecific.tag octetStringRefCodec
      ⟨2, TagMode.Implicit, ⟨⟨[7], by decide⟩⟩⟩).is_constructed =
      (octetStringRefCodec.tag ⟨⟨[7], by decide⟩⟩).is_constructed :=
  ⟨(C6_reported_tag octetStringRefCodec _).2.2.1 rfl,
   (C6_reported_tag octetStringRefCodec _).2.2.2 rfl⟩

/-- C10: `Choice::can_decode` for `ContextSpecific<T>` accepts a tag exactly
when it is context-specific, independently of the tag's number and
constructed flag (and of the inner type: the predicate does not inspect
it). -/
theorem C10_can_decode_any_context_specific :
    ∀ (cls : TagClass) (con : Bool) (num : Nat),
      (ContextSpecific.can_decode ⟨cls, con, num⟩ = true ↔
        cls = TagClass.contextSpecific) ∧
      ∀ (con2 : Bool) (num2 : Nat),
        ContextSpecific.can_decode ⟨cls, con, num⟩ =
          ContextSpecific.can_decode ⟨cls, con2, num2⟩ := by
  intro cls con num
  constructor
  · simp [ContextSpecific.can_decode, Tag.is_context_specific]
  · intro con2 num2
    rfl

/-- C2: `decode_explicit` and `decode_implicit` are a trichotomy on the
peeked next tag: end of input, a non-context-specific tag, or a tag number
above the target yields `Ok(None)` with the input unconsumed; the exact
target number consumes the field through the mode-specific decode; a lower
number consumes and discards the field as an untyped TLV unit and repeats
the loop on the remaining input. -/
theorem C2_extension_skip_trichotomy {α : Type} (cod : Codec α) (n : Nat)
    (input : List Nat) :
    (Tag.peek_optional input = .ok none →
      ContextSpecific.decode_explicit cod n input = .ok (none, input) ∧
      ContextSpecific.decode_implicit cod n input = .ok (none, input)) ∧
    (∀ t : Tag, Tag.peek_optional input = .ok (some t) →
      ((t.is_context_specific = false ∨ n < t.number) →
        ContextSpecific.decode_explicit cod n input = .ok (none, input) ∧
        ContextSpecific.decode_implicit cod n input = .ok (none, input)) ∧
      (t.is_context_specific = true → t.number = n →
        ContextSpecific.decode_explicit cod n input =
          liftCS (ContextSpecific.decode cod input) ∧
        ContextSpecific.decode_implicit cod n input =
          liftCS (ContextSpecific.decodeImplicitField cod n input)) ∧
      (t.is_context_specific = true → t.number < n →
        ∀ content rest, anyDecode input = .ok (content, rest) →
          ContextSpecific.decode_explicit cod n input =
            ContextSpecific.decode_explicit cod n rest ∧
          ContextSpecific.decode_implicit cod n input =
            ContextSpecific.decode_implicit cod n rest)) := by
  refine ⟨fun h => ⟨decode_with_none _ _ _ h, decode_with_none _ _ _ h⟩,
    fun t hp => ⟨?_, ?_, ?_⟩⟩
  · intro hs
    exact ⟨decode_with_stop _ _ _ _ hp hs, decode_with_stop _ _ _ _ hp hs⟩
  · intro hcs heq
    exact ⟨decode_with_hit _ _ _ _ hp hcs heq, decode_with_hit _ _ _ _ hp hcs heq⟩
  · intro hcs hlt content rest ha
    exact ⟨decode_with_skip _ _ _ _ _ _ hp hcs hlt ha,
      decode_with_skip _ _ _ _ _ _ hp hcs hlt ha⟩

/-- Witness for C2: the four behaviors at concrete inputs — empty input,
a higher-numbered field (`A1...` probed for 0), the exact target (`A0...`
probed for 0), and a lower-numbered field skipped as an untyped unit
(`A0... A1...` probed for 1). -/
theorem C2_witness :
    ContextSpecific.decode_explicit u8Codec 0 ([] : List Nat) = .ok (none, []) ∧
    ContextSpecific.decode_explicit u8Codec 0 [0xA1, 3, 2, 1, 1] =
      .ok (none, [0xA1, 3, 2, 1, 1]) ∧
    ContextSpecific.decode_explicit u8Codec 0 [0xA0, 3, 2, 1, 0] =
      liftCS (ContextSpecific.decode u8Codec [0xA0, 3, 2, 1, 0]) ∧
    ContextSpecific.decode_implicit u8Codec 1 [0xA0, 3, 2, 1, 0, 0xA1, 3, 2, 1, 1] =
      ContextSpecific.decode_implicit u8Codec 1 [0xA1, 3, 2, 1, 1] := by
  refine ⟨((C2_extension_skip_trichotomy u8Codec 0 []).1 rfl).1, ?_, ?_, ?_⟩
  · exact (((C2_extension_skip_trichotomy u8Codec 0 [0xA1, 3, 2, 1, 1]).2
      ⟨TagClass.contextSpecific, true, 1⟩ (by decide)).1 (Or.inr (by decide))).1
  · exact (((C2_extension_skip_trichotomy u8Codec 0 [0xA0, 3, 2, 1, 0]).2
      ⟨TagClass.contextSpecific, true, 0⟩ (by decide)).2.1 (by decide) rfl).1
  · exact (((C2_extension_skip_trichotomy u8Codec 1
      [0xA0, 3, 2, 1, 0, 0xA1, 3, 2, 1, 1]).2
      ⟨TagClass.contextSpecific, true, 0⟩ (by decide)).2.2 (by decide) (by decide)
      [2, 1, 0] [0xA1, 3, 2, 1, 1] (by decide)).2

/-- C3: when the probe stops because the next tag is absent, not
context-specific, or carries a higher number than the target, both decode
loops return `Ok(None)` with the reader state unchanged (only the
non-consuming peek happened); in particular probing `A1 03 02 01 01` for
tag number 0 reports absence leaving the bytes intact, and the same reader
then probed for tag number 1 succeeds. -/
theorem C3_absent_leaves_reader_unchanged {α : Type} (cod : Codec α) (n : Nat)
    (input : List Nat)
    (h : Tag.peek_optional input = .ok none ∨
      ∃ t : Tag, Tag.peek_optional input = .ok (some t) ∧
        (t.is_context_specific = false ∨ n < t.number)) :
    (ContextSpecific.decode_explicit cod n input = .ok (none, input) ∧
     ContextSpecific.decode_implicit cod n input = .ok (none, input)) ∧
    (ContextSpecific.decode_explicit u8Codec 0 [0xA1, 3, 2, 1, 1] =
      .ok (none, [0xA1, 3, 2, 1, 1]) ∧
     ContextSpecific.decode_explicit u8Codec 1 [0xA1, 3, 2, 1, 1] =
      .ok (some ⟨1, TagMode.Explicit, 1⟩, [])) := by
  constructor
  · rcases h with h | ⟨t, hp, hs⟩
    · exact ⟨decode_with_none _ _ _ h, decode_with_none _ _ _ h⟩
    · exact ⟨decode_with_stop _ _ _ _ hp hs, decode_with_stop _ _ _ _ hp hs⟩
  · constructor
    · exact decode_with_stop _ _ _ ⟨TagClass.contextSpecific, true, 1⟩
        (by decide) (Or.inr (by decide))
    · have h1 : ContextSpecific.decode_with (ContextSpecific.decode u8Codec) 1
          [0xA1, 3, 2, 1, 1] = liftCS (ContextSpecific.decode u8Codec [0xA1, 3, 2, 1, 1]) :=
        decode_with_hit _ _ _ ⟨TagClass.contextSpecific, true, 1⟩ (by decide) (by decide) rfl
      show ContextSpecific.decode_with (ContextSpecific.decode u8Codec) 1
          [0xA1, 3, 2, 1, 1] = _
      rw [h1]
      decide

/-- Witness for C3: the concrete probe for tag number 0 on `A1 03 02 01 01`
and the follow-up probe for tag number 1 on the untouched reader. -/
theorem C3_witness :
    ContextSpecific.decode_explicit u8Codec 0 [0xA1, 3, 2, 1, 1] =
      .ok (none, [0xA1, 3, 2, 1, 1]) ∧
    ContextSpecific.decode_implicit u8Codec 0 [0xA1, 3, 2, 1, 1] =
      .ok (none, [0xA1, 3, 2, 1, 1]) ∧
    ContextSpecific.decode_explicit u8Codec 1 [0xA1, 3, 2, 1, 1] =
      .ok (some ⟨1, TagMode.Explicit, 1⟩, []) := by
  have h := C3_absent_leaves_reader_unchanged u8Codec 0 [0xA1, 3, 2, 1, 1]
    (Or.inr ⟨⟨TagClass.contextSpecific, true, 1⟩, by decide, Or.inr (by decide)⟩)
  exact ⟨h.1.1, h.1.2, h.2.2⟩

/-- C8: the `EXPLICIT` unit-level decode of `ContextSpecific<T>` succeeds
only when the consumed outer header's tag is context-specific and
constructed; in that case the inner value's own TLV unit is decoded inside
the nested cursor bounded by the outer length; any other observed tag fails
with an unexpected-tag error. -/
theorem C8_explicit_unit_decode {α : Type} (cod : Codec α) (input : List Nat)
    (header : Header) (rest : List Nat)
    (hh : Header.decode input = .ok (header, rest)) :
    (∀ c rest2, ContextSpecific.decode cod input = .ok (c, rest2) →
      header.tag.cls = TagClass.contextSpecific ∧ header.tag.constructed = true) ∧
    (header.tag.cls = TagClass.contextSpecific ∧ header.tag.constructed = true →
      (∀ v rest2, readNested header.length cod.decode rest = .ok (v, rest2) →
        ContextSpecific.decode cod input =
          .ok (⟨header.tag.number, TagMode.Explicit, v⟩, rest2)) ∧
      (∀ e, readNested header.length cod.decode rest = .error e →
        ContextSpecific.decode cod input = .error e)) ∧
    (¬ (header.tag.cls = TagClass.contextSpecific ∧ header.tag.constructed = true) →
      ContextSpecific.decode cod input =
        .error (.unexpectedTag (Tag.encodeByte header.tag))) := by
  refine ⟨?_, ?_, ?_⟩
  · intro c rest2 hdec
    by_contra hnc
    rw [ContextSpecific.decode, hh] at hdec
    dsimp only at hdec
    rw [if_neg hnc] at hdec
    cases hdec
  · intro hc
    constructor
    · intro v rest2 hr
      rw [ContextSpecific.decode, hh]
      dsimp only
      rw [if_pos hc, hr]
    · intro e hr
      rw [ContextSpecific.decode, hh]
      dsimp only
      rw [if_pos hc, hr]
  · intro hnc
    rw [ContextSpecific.decode, hh]
    dsimp only
    rw [if_neg hnc]

/-- Witness for C8: `A0 03 02 01 00` decodes as the explicit field `[0]`
over an 8-bit integer (value 0), while a top-level `02 01 00` (INTEGER,
not context-specific) fails with the unexpected-tag error carrying `0x02`. -/
theorem C8_witness :
    ContextSpecific.decode u8Codec [0xA0, 3, 2, 1, 0] =
      .ok (⟨0, TagMode.Explicit, 0⟩, []) ∧
    ContextSpecific.decode u8Codec [0x02, 1, 0] =
      .error (.unexpectedTag 0x02) := by
  constructor
  · exact ((C8_explicit_unit_decode u8Codec [0xA0, 3, 2, 1, 0]
      ⟨⟨TagClass.contextSpecific, true, 0⟩, 3⟩ [2, 1, 0] (by decide)).2.1
      (by decide)).1 0 [] (by decide)
  · exact (C8_explicit_unit_decode u8Codec [0x02, 1, 0]
      ⟨⟨TagClass.universal, false, 2⟩, 1⟩ [0] (by decide)).2.2 (by decide)

/-- C9: every `OctetString` built by `new` (and hence by `decode_value`,
which constructs through `new`) re-validates as an `OctetStringRef`, so the
owned-to-borrowed conversion can never hit its panic branch. -/
theorem C9_owned_to_ref_never_fails :
    (∀ (bytes : List Nat) (os : OctetString), OctetString.new bytes = .ok os →
      ∃ r, OctetString.owned_to_ref os = .ok r) ∧
    (∀ (header : Header) (input : List Nat) (os : OctetString) (rest : List Nat),
      OctetString.decode_value header input = .ok (os, rest) →
      ∃ r, OctetString.owned_to_ref os = .ok r) := by
  have key : ∀ (bytes : List Nat) (os : OctetString), OctetString.new bytes = .ok os →
      ∃ r, OctetString.owned_to_ref os = .ok r := by
    intro bytes os hnew
    rw [OctetString.new] at hnew
    cases hr : OctetStringRef.new bytes with
    | error e => rw [hr] at hnew; cases hnew
    | ok r =>
      rw [hr] at hnew
      cases hnew
      exact ⟨r, hr⟩
  refine ⟨key, ?_⟩
  intro header input os rest hdec
  rw [OctetString.decode_value] at hdec
  cases hv : readVec header.length input with
  | error e => rw [hv] at hdec; cases hdec
  | ok p =>
    obtain ⟨bytes, rest2⟩ := p
    rw [hv] at hdec
    dsimp only at hdec
    cases hnew : OctetString.new bytes with
    | error e => rw [hnew] at hdec; cases hdec
    | ok os2 =>
      rw [hnew] at hdec
      cases hdec
      exact key bytes _ hnew

/-- Witness for C9: conversion succeeds for an owned octet string built by
`new` and for one produced by `decode_value`. -/
theorem C9_witness :
    (∃ r, OctetString.owned_to_ref ⟨[1, 2]⟩ = .ok r) ∧
    (∃ r, OctetString.owned_to_ref ⟨[0xAA]⟩ = .ok r) := by
  constructor
  · exact C9_owned_to_ref_never_fails.1 [1, 2] ⟨[1, 2]⟩ (by decide)
  · exact C9_owned_to_ref_never_fails.2 ⟨Tag.octetString, 1⟩ [0xAA] ⟨[0xAA]⟩ []
      (by decide)

theorem readVec_ok {len : Nat} {input bytes rest : List Nat}
    (h : readVec len input = .ok (bytes, rest)) :
    bytes = input.take len ∧ rest = input.drop len := by
  rw [readVec] at h
  split at h
  · cases h
    exact ⟨rfl, rfl⟩
  · cases h

theorem BytesRef.new_ok_inv {bytes : List Nat} {br : BytesRef}
    (h : BytesRef.new bytes = .ok br) : br.data = bytes := by
  rw [BytesRef.new] at h
  split at h
  · cases h
    rfl
  · cases h

/-- C7: octet strings are loss-free — `value_len` is the stored slice's byte
count, `encode_value` writes the stored bytes verbatim, `decode_value` reads
exactly the header-declared number of bytes verbatim, and decoding the unit
encoding of any constructible value returns that value, for both the
borrowed and the owned form. -/
theorem C7_octet_string_roundtrip :
    (∀ (s : OctetStringRef) (rest : List Nat),
      OctetStringRef.value_len s = s.inner.data.length ∧
      OctetStringRef.encode_value s = s.inner.data ∧
      unitDecode Tag.octetString OctetStringRef.decode_value
        (unitEncode (fun _ => Tag.octetString) OctetStringRef.value_len
          OctetStringRef.encode_value s ++ rest) = .ok (s, rest)) ∧
    (∀ (h : Header) (input : List Nat) (w : OctetStringRef) (rem : List Nat),
      OctetStringRef.decode_value h input = .ok (w, rem) →
        w.inner.data = input.take h.length ∧ rem = input.drop h.length) ∧
    (∀ (s : OctetString) (rest : List Nat), s.inner.length ≤ maxLength →
      OctetString.value_len s = s.inner.length ∧
      OctetString.encode_value s = s.inner ∧
      unitDecode Tag.octetString OctetString.decode_value
        (unitEncode (fun _ => Tag.octetString) OctetString.value_len
          OctetString.encode_value s ++ rest) = .ok (s, rest)) ∧
    (∀ (h : Header) (input : List Nat) (w : OctetString) (rem : List Nat),
      OctetString.decode_value h input = .ok (w, rem) →
        w.inner = input.take h.length ∧ rem = input.drop h.length) := by
  refine ⟨?_, ?_, ?_, ?_⟩
  · intro s rest
    exact ⟨rfl, rfl, octetRef_unit_roundtrip s rest⟩
  · intro h input w rem hdec
    rw [OctetStringRef.decode_value, BytesRef.decode_value] at hdec
    cases hv : readVec h.length input with
    | error e => rw [hv] at hdec; cases hdec
    | ok p =>
      obtain ⟨bytes, rest2⟩ := p
      rw [hv] at hdec
      dsimp only at hdec
      cases hbr : BytesRef.new bytes with
      | error e => rw [hbr] at hdec; cases hdec
      | ok br =>
        rw [hbr] at hdec
        cases hdec
        obtain ⟨h1, h2⟩ := readVec_ok hv
        exact ⟨by rw [BytesRef.new_ok_inv hbr, h1], h2⟩
  · intro s rest hle
    exact ⟨rfl, rfl, octetOwned_unit_roundtrip s rest hle⟩
  · intro h input w rem hdec
    rw [OctetString.decode_value] at hdec
    cases hv : readVec h.length input with
    | error e => rw [hv] at hdec; cases hdec
    | ok p =>
      obtain ⟨bytes, rest2⟩ := p
      rw [hv] at hdec
      dsimp only at hdec
      cases hnew : OctetString.new bytes with
      | error e => rw [hnew] at hdec; cases hdec
      | ok os =>
        rw [hnew] at hdec
        cases hdec
        obtain ⟨h1, h2⟩ := readVec_ok hv
        rw [OctetString.new] at hnew
        cases hr : OctetStringRef.new bytes with
        | error e => rw [hr] at hnew; cases hnew
        | ok r =>
          rw [hr] at hnew
          cases hnew
          exact ⟨h1, h2⟩

/-- Witness for C7: the three-byte octet string `[1, 2, 3]` in both forms,
with a trailing byte preserved, and a concrete `decode_value` reading
exactly the declared two bytes. -/
theorem C7_witness :
    unitDecode Tag.octetString OctetStringRef.decode_value
      (unitEncode (fun _ => Tag.octetString) OctetStringRef.value_len
        OctetStringRef.encode_value ⟨⟨[1, 2, 3], by decide⟩⟩ ++ [9]) =
      .ok (⟨⟨[1, 2, 3], by decide⟩⟩, [9]) ∧
    unitDecode Tag.octetString OctetString.decode_value
      (unitEncode (fun _ => Tag.octetString) OctetString.value_len
        OctetString.encode_value ⟨[1, 2, 3]⟩ ++ [9]) = .ok (⟨[1, 2, 3]⟩, [9]) ∧
    ([5, 6, 7].take (⟨Tag.octetString, 2⟩ : Header).length = [5, 6] ∧
      [5, 6, 7].drop (⟨Tag.octetString, 2⟩ : Header).length = [7]) := by
  refine ⟨(C7_octet_string_roundtrip.1 ⟨⟨[1, 2, 3], by decide⟩⟩ [9]).2.2,
    (C7_octet_string_roundtrip.2.2.1 ⟨[1, 2, 3]⟩ [9] (by decide)).2.2, ?_⟩
  have h := C7_octet_string_roundtrip.2.1 ⟨Tag.octetString, 2⟩ [5, 6, 7]
    ⟨⟨[5, 6], by decide⟩⟩ [7] (by decide)
  exact ⟨by rw [← h.1], by rw [← h.2]⟩

/-- Peeking at an encoded header yields its tag. -/
theorem peek_encoded (h : Header) (rest : List Nat) (ht : h.tag.number ≤ 30) :
    Tag.peek_optional (Header.encode h ++ rest) = .ok (some h.tag) := by
  simp only [Header.encode, List.cons_append, Tag.peek_optional]
  rw [Tag.decodeByte_encodeByte ht]

/-- C5: for the same inner value, the `EXPLICIT` wrapper's `value_len` is the
inner value's full encoded length (header plus content) while the `IMPLICIT`
wrapper's is the inner content length only — so the `EXPLICIT` encoding is
strictly larger by exactly the inner value's own header size — and decoding
either wrapper's full encoding returns a wrapper holding an inner value
equal to the original. -/
theorem C5_explicit_vs_implicit {α : Type} (cod : Codec α) (v : α) (n : Nat)
    (hlen : cod.valueLen v = (cod.encodeValue v).length)
    (hdec : ∀ rest, cod.decode
      (unitEncode cod.tag cod.valueLen cod.encodeValue v ++ rest) = .ok (v, rest))
    (hdv : ∀ (h : Header) (rest : List Nat), h.length = cod.valueLen v →
      cod.decodeValue h (cod.encodeValue v ++ rest) = .ok (v, rest))
    (hn : n ≤ 30)
    (hsz : (Header.encode ⟨cod.tag v, cod.valueLen v⟩).length + cod.valueLen v ≤
      maxLength) :
    ContextSpecific.value_len cod ⟨n, TagMode.Explicit, v⟩ =
      (Header.encode ⟨cod.tag v, cod.valueLen v⟩).length + cod.valueLen v ∧
    ContextSpecific.value_len cod ⟨n, TagMode.Implicit, v⟩ = cod.valueLen v ∧
    ContextSpecific.value_len cod ⟨n, TagMode.Explicit, v⟩ =
      ContextSpecific.value_len cod ⟨n, TagMode.Implicit, v⟩ +
        (Header.encode ⟨cod.tag v, cod.valueLen v⟩).length ∧
    0 < (Header.encode ⟨cod.tag v, cod.valueLen v⟩).length ∧
    ContextSpecific.decode_explicit cod n
      (ContextSpecific.encodedBytes cod ⟨n, TagMode.Explicit, v⟩) =
      .ok (some ⟨n, TagMode.Explicit, v⟩, []) ∧
    ContextSpecific.decode_implicit cod n
      (ContextSpecific.encodedBytes cod ⟨n, TagMode.Implicit, v⟩) =
      .ok (some ⟨n, TagMode.Implicit, v⟩, []) := by
  refine ⟨rfl, rfl, by dsimp [ContextSpecific.value_len]; omega,
    by simp [Header.encode], ?_, ?_⟩
  · -- EXPLICIT roundtrip
    have hpeek : Tag.peek_optional
        (ContextSpecific.encodedBytes cod ⟨n, TagMode.Explicit, v⟩) =
        .ok (some (ContextSpecific.tag cod ⟨n, TagMode.Explicit, v⟩)) :=
      peek_encoded ⟨ContextSpecific.tag cod ⟨n, TagMode.Explicit, v⟩,
        ContextSpecific.value_len cod ⟨n, TagMode.Explicit, v⟩⟩
        (ContextSpecific.encode_value cod ⟨n, TagMode.Explicit, v⟩) hn
    have hstep := decode_with_hit (ContextSpecific.decode cod) n
      (ContextSpecific.encodedBytes cod ⟨n, TagMode.Explicit, v⟩)
      (ContextSpecific.tag cod ⟨n, TagMode.Explicit, v⟩) hpeek rfl rfl
    show ContextSpecific.decode_with (ContextSpecific.decode cod) n _ = _
    rw [hstep]
    have houter : Header.decode
        (ContextSpecific.encodedBytes cod ⟨n, TagMode.Explicit, v⟩) =
        .ok (⟨ContextSpecific.tag cod ⟨n, TagMode.Explicit, v⟩,
          ContextSpecific.value_len cod ⟨n, TagMode.Explicit, v⟩⟩,
          ContextSpecific.encode_value cod ⟨n, TagMode.Explicit, v⟩) :=
      @Header.decode_encode ⟨ContextSpecific.tag cod ⟨n, TagMode.Explicit, v⟩,
        ContextSpecific.value_len cod ⟨n, TagMode.Explicit, v⟩⟩ hn hsz
        (ContextSpecific.encode_value cod ⟨n, TagMode.Explicit, v⟩)
    rw [ContextSpecific.decode, houter]
    dsimp only
    rw [if_pos ⟨rfl, rfl⟩]
    have hinner : readNested (ContextSpecific.value_len cod ⟨n, TagMode.Explicit, v⟩)
        cod.decode (ContextSpecific.encode_value cod ⟨n, TagMode.Explicit, v⟩) =
        .ok (v, []) := by
      have h0 := hdec []
      rw [List.append_nil] at h0
      have h2 : ContextSpecific.value_len cod ⟨n, TagMode.Explicit, v⟩ =
          (unitEncode cod.tag cod.valueLen cod.encodeValue v).length := by
        dsimp [ContextSpecific.value_len, unitEncode]
        rw [hlen]
        simp
      rw [h2]
      have h3 : ContextSpecific.encode_value cod ⟨n, TagMode.Explicit, v⟩ =
          unitEncode cod.tag cod.valueLen cod.encodeValue v ++ [] := by
        rw [List.append_nil]
        rfl
      rw [h3]
      exact readNested_exact _ _ [] v h0
    rw [hinner]
    rfl
  · -- IMPLICIT roundtrip
    have hpeek : Tag.peek_optional
        (ContextSpecific.encodedBytes cod ⟨n, TagMode.Implicit, v⟩) =
        .ok (some (ContextSpecific.tag cod ⟨n, TagMode.Implicit, v⟩)) :=
      peek_encoded ⟨ContextSpecific.tag cod ⟨n, TagMode.Implicit, v⟩,
        ContextSpecific.value_len cod ⟨n, TagMode.Implicit, v⟩⟩
        (ContextSpecific.encode_value cod ⟨n, TagMode.Implicit, v⟩) hn
    have hstep := decode_with_hit
      (ContextSpecific.decodeImplicitField cod n) n
      (ContextSpecific.encodedBytes cod ⟨n, TagMode.Implicit, v⟩)
      (ContextSpecific.tag cod ⟨n, TagMode.Implicit, v⟩) hpeek rfl rfl
    show ContextSpecific.decode_with (ContextSpecific.decodeImplicitField cod n) n _ = _
    rw [hstep]
    have houter : Header.decode
        (ContextSpecific.encodedBytes cod ⟨n, TagMode.Implicit, v⟩) =
        .ok (⟨ContextSpecific.tag cod ⟨n, TagMode.Implicit, v⟩,
          ContextSpecific.value_len cod ⟨n, TagMode.Implicit, v⟩⟩,
          ContextSpecific.encode_value cod ⟨n, TagMode.Implicit, v⟩) :=
      @Header.decode_encode ⟨ContextSpecific.tag cod ⟨n, TagMode.Implicit, v⟩,
        ContextSpecific.value_len cod ⟨n, TagMode.Implicit, v⟩⟩ hn
        (by dsimp [ContextSpecific.value_len]; omega)
        (ContextSpecific.encode_value cod ⟨n, TagMode.Implicit, v⟩)
    rw [ContextSpecific.decodeImplicitField, houter]
    dsimp only
    have hinner : readNested (ContextSpecific.value_len cod ⟨n, TagMode.Implicit, v⟩)
        (cod.decodeValue ⟨ContextSpecific.tag cod ⟨n, TagMode.Implicit, v⟩,
          ContextSpecific.value_len cod ⟨n, TagMode.Implicit, v⟩⟩)
        (ContextSpecific.encode_value cod ⟨n, TagMode.Implicit, v⟩) = .ok (v, []) := by
      have h0 := hdv ⟨ContextSpecific.tag cod ⟨n, TagMode.Implicit, v⟩,
        ContextSpecific.value_len cod ⟨n, TagMode.Implicit, v⟩⟩ [] rfl
      rw [List.append_nil] at h0
      have h2 : ContextSpecific.value_len cod ⟨n, TagMode.Implicit, v⟩ =
          (cod.encodeValue v).length := hlen
      rw [h2] at h0 ⊢
      have h3 : ContextSpecific.encode_value cod ⟨n, TagMode.Implicit, v⟩ =
          cod.encodeValue v ++ [] := by
        rw [List.append_nil]
        rfl
      rw [h3]
      exact readNested_exact _ _ [] v h0
    rw [hinner]
    dsimp only
    rw [if_neg (by simp [ContextSpecific.tag, Tag.is_constructed])]
    rfl

/-- Witness for C5: the one-byte octet string `AA` wrapped at tag number 0 —
`EXPLICIT` content is 3 bytes (a 2-byte inner header plus 1 content byte),
`IMPLICIT` content is 1 byte, and both full encodings decode back to the
original wrapper. -/
theorem C5_witness :
    ContextSpecific.value_len octetStringRefCodec
        ⟨0, TagMode.Explicit, ⟨⟨[0xAA], by decide⟩⟩⟩ =
      ContextSpecific.value_len octetStringRefCodec
        ⟨0, TagMode.Implicit, ⟨⟨[0xAA], by decide⟩⟩⟩ +
      (Header.encode ⟨octetStringRefCodec.tag ⟨⟨[0xAA], by decide⟩⟩,
        octetStringRefCodec.valueLen ⟨⟨[0xAA], by decide⟩⟩⟩).length ∧
    ContextSpecific.decode_explicit octetStringRefCodec 0
      (ContextSpecific.encodedBytes octetStringRefCodec
        ⟨0, TagMode.Explicit, ⟨⟨[0xAA], by decide⟩⟩⟩) =
      .ok (some ⟨0, TagMode.Explicit, ⟨⟨[0xAA], by decide⟩⟩⟩, []) ∧
    ContextSpecific.decode_implicit octetStringRefCodec 0
      (ContextSpecific.encodedBytes octetStringRefCodec
        ⟨0, TagMode.Implicit, ⟨⟨[0xAA], by decide⟩⟩⟩) =
      .ok (some ⟨0, TagMode.Implicit, ⟨⟨[0xAA], by decide⟩⟩⟩, []) := by
  have h := C5_explicit_vs_implicit octetStringRefCodec ⟨⟨[0xAA], by decide⟩⟩ 0
    rfl (fun rest => octetRef_unit_roundtrip ⟨⟨[0xAA], by decide⟩⟩ rest)
    (fun hh rest hl => OctetStringRef.decode_value_exact_ref hh ⟨⟨[0xAA], by decide⟩⟩ rest hl)
    (by decide) (by decide)
  exact ⟨h.2.2.1, h.2.2.2.2.1, h.2.2.2.2.2⟩

end Der
